import Mathlib

/-!
Verification development for the mhcflurry-web front-end (src/app.py).

The file shallowly embeds the pure content of the request pipeline:
peptide validation (`check_peptide_validity`), the peptide and FASTA
dispatch functions (`predict_peptides`, `predict_fasta`), the result
tabulation performed in `get_results` (drop_duplicates, pivot, derived
columns, sort), and the two HTTP handlers `get_results` and
`iedb_api_predict`.  The external predictor (mhctools/mhcflurry) and the
FASTA parser (Biopython) are passed in as function parameters; everything
the repository itself computes is translated from the source.

Python / pandas semantics captured by the embedding:
* `str.strip`, `str.split()`, `str.split(",")`, `str.upper`, slicing -
  modelled on lists of characters (`pyStrip`, `pySplitWs`, `pySplitOn`,
  `pyUpper`, `pyTake`).  `upper` is modelled per character, which agrees
  with Python on the ASCII inputs the pipeline handles.
* `re.match` on the pattern `^[ALPHABET]{m,M}$` (via `pandas.str.match`):
  the Python dollar anchor also matches just before a single trailing
  newline, which the embedding reproduces (`check_peptide_validity`).
* `DataFrame.drop_duplicates(["peptide", "allele"])` - keeps the first
  record of each (peptide, allele) pair in input order (`dedupPA`).
* `DataFrame.pivot(index, columns, values)` - one row per distinct index
  value, one column per distinct columns value, with BOTH axes in sorted
  order (pandas builds the axes as sorted Categorical levels).
* `DataFrame.min(axis=1)` - row-wise minimum, skipping missing cells, and
  skipping the non-numeric `peptide` column (`minCells`).
* `DataFrame.sort_values(key)` - ascending, missing keys last.  The
  default numpy quicksort guarantees only the key order, not the order
  of rows with equal keys, so the embedding picks one concrete
  implementation (`sortLe`, a deterministic insertion sort) and states
  only key-order consequences of the sort as universal properties; the
  relative order of tied rows enters only concrete small-table
  evaluations, where numpy too runs an insertion sort.
-/

/-! ## Python string primitives -/

/-- Whitespace characters recognised by Python `str.strip` / `str.split`. -/
def isPySpace (c : Char) : Bool :=
  c = ' ' || c = '\t' || c = '\n' || c = '\r' || c = '\x0b' || c = '\x0c'

/-- Python `s.strip()`: remove leading and trailing whitespace. -/
def pyStrip (s : String) : String :=
  String.mk (((s.data.dropWhile isPySpace).reverse.dropWhile isPySpace).reverse)

/-- Python `s.upper()` (per-character; agrees with Python on ASCII). -/
def pyUpper (s : String) : String :=
  String.mk (s.data.map Char.toUpper)

/-- Python `s[:n]`. -/
def pyTake (n : Nat) (s : String) : String :=
  String.mk (s.data.take n)

/-- Accumulator-passing worker for whitespace splitting. -/
def wsTokens : List Char → List Char → List (List Char)
  | [], acc => if acc = [] then [] else [acc.reverse]
  | c :: cs, acc =>
    if isPySpace c then
      if acc = [] then wsTokens cs [] else acc.reverse :: wsTokens cs []
    else wsTokens cs (c :: acc)

/-- Python `s.split()` with no argument: split on whitespace runs,
dropping empty tokens. -/
def pySplitWs (s : String) : List String :=
  (wsTokens s.data []).map String.mk

/-- Splitting a character list on a separator, keeping empty segments.
The result always has at least one element, like Python `str.split(sep)`. -/
def splitCharsOn (sep : Char) : List Char → List (List Char)
  | [] => [[]]
  | c :: cs =>
    if c = sep then [] :: splitCharsOn sep cs
    else
      match splitCharsOn sep cs with
      | [] => [[c]]
      | g :: gs => (c :: g) :: gs

/-- Python `s.split(",")` (with an explicit separator, keeping empties). -/
def pySplitOn (sep : Char) (s : String) : List String :=
  (splitCharsOn sep s.data).map String.mk

/-! ## Input validator (`check_peptide_validity`, src/app.py lines 28-32) -/

/-- The keys of `mhcflurry.amino_acid.COMMON_AMINO_ACIDS`, sorted: the 20
standard one-letter amino-acid codes used to build the validity regex. -/
def COMMON_AMINO_ACIDS : List Char :=
  ['A', 'C', 'D', 'E', 'F', 'G', 'H', 'I', 'K', 'L',
   'M', 'N', 'P', 'Q', 'R', 'S', 'T', 'V', 'W', 'Y']

/-- Matching the regex body `[ALPHABET]{mn,mx}` against the whole string:
the length lies in the given bounds and every character is in the fixed
amino-acid alphabet. -/
def matchesCore (s : String) (mn mx : Nat) : Bool :=
  mn ≤ s.length && s.length ≤ mx && s.data.all (fun c => c ∈ COMMON_AMINO_ACIDS)

/-- Per-element semantics of `check_peptide_validity` (the source runs the
same regex over a whole `pandas.Series`; semantics are element-wise).  The
source matches `^[ALPHABET]{mn,mx}$` with `re.match`; a Python dollar
anchor without `re.MULTILINE` matches at the end of the string or just
before a newline that ends the string, so a string consisting of a valid
core followed by one trailing newline also matches. -/
def check_peptide_validity (s : String) (mn mx : Nat) : Bool :=
  matchesCore s mn mx ||
    (match s.data.getLast? with
     | some c => c = '\n' && matchesCore (String.mk s.data.dropLast) mn mx
     | none => false)

/-! ## Prediction records and external collaborators -/

/-- One long-format prediction row as produced by the external predictor
(`to_dataframe`): the columns the handlers use. -/
structure PredictionRecord where
  peptide : String
  allele : String
  affinity : ℚ
  length : Nat
deriving DecidableEq, Repr

/-- Errors an external predictor call may raise.  The handlers distinguish
`ValueError` (caught at the API boundary) from every other exception. -/
inductive PredError where
  | valueError (msg : String)
  | otherError (msg : String)
deriving DecidableEq, Repr

/-- The external peptide predictor (`mhctools.MHCflurry.predict_peptides`
followed by `to_dataframe`), abstracted as a function. -/
def Oracle : Type :=
  List String → List String → Except PredError (List PredictionRecord)

/-- The external subsequence scanner
(`mhctools.MHCflurry.predict_subsequences`), abstracted as a function of
the surviving proteins, the peptide window lengths, and the alleles. -/
def ScanOracle : Type :=
  List (String × String) → List Nat → List String →
    Except PredError (List PredictionRecord)

/-- The external FASTA parser (`Bio.SeqIO.parse`), abstracted as a
function from the raw text to (id, sequence) records.  The source stores
them in a dict keyed by id; ids are assumed distinct here, which is the
only case the claims touch. -/
def FastaParse : Type := String → List (String × String)

/-! ## Peptide pipeline (`predict_peptides`, src/app.py lines 35-59) -/

/-- Translation of `predict_peptides`: empty input gives no result; the
input is filtered by validity against the predictor-supported length
range; an empty valid subset gives no result; otherwise the external
predictor is called on the valid subset and its long-format result is
returned.  (The flash warning about excluded peptides is a side channel
with no effect on the returned value.) -/
def predict_peptides (oracle : Oracle) (Lmin Lmax : Nat)
    (peptides alleles : List String) :
    Except PredError (Option (List PredictionRecord)) :=
  if peptides = [] then .ok none
  else
    let valid := peptides.filter (fun p => check_peptide_validity p Lmin Lmax)
    if valid = [] then .ok none
    else (oracle valid alleles).map some

/-! ## FASTA pipeline (`predict_fasta`, src/app.py lines 62-82) -/

/-- The record filter applied to each parsed FASTA sequence: the validity
check with the predictor minimum length and the hard-coded
`max_length=10000` from the source. -/
def fasta_record_ok (Lmin : Nat) (seq : String) : Bool :=
  check_peptide_validity seq Lmin 10000

/-- Translation of `predict_fasta`: whitespace-only input gives no
result; parsed records are filtered by `fasta_record_ok`; if no record
survives there is no result; otherwise the external subsequence scanner
is called with window lengths `Lmin..Lmax` inclusive. -/
def predict_fasta (parse : FastaParse) (scan : ScanOracle) (Lmin Lmax : Nat)
    (fasta_contents : String) (alleles : List String) :
    Except PredError (Option (List PredictionRecord)) :=
  if pyStrip fasta_contents = "" then .ok none
  else
    let prots := (parse fasta_contents).filter
      (fun pr => fasta_record_ok Lmin pr.2)
    if prots = [] then .ok none
    else (scan prots (List.range' Lmin (Lmax + 1 - Lmin)) alleles).map some

/-! ## Result tabulation (src/app.py lines 132-143) -/

/-- Two records agree on the (peptide, allele) key used by
`drop_duplicates`. -/
def samePair (r s : PredictionRecord) : Bool :=
  s.peptide == r.peptide && s.allele == r.allele

/-- Fuel-indexed worker for `drop_duplicates`: keep the head record and
drop every later record with the same (peptide, allele) pair.  The fuel
(any upper bound on the list length) makes the recursion structural, so
the function evaluates inside the kernel. -/
def dedupPAF : Nat → List PredictionRecord → List PredictionRecord
  | _, [] => []
  | 0, _ :: _ => []
  | Nat.succ n, r :: rs =>
    r :: dedupPAF n (rs.filter (fun s => !(samePair r s)))

/-- `drop_duplicates(["peptide", "allele"])`: keep the first record of
each (peptide, allele) pair in input order. -/
def dedupPA (l : List PredictionRecord) : List PredictionRecord :=
  dedupPAF l.length l

/-- The Bool predicate selecting the record of a given (peptide, allele)
pair; `find?` with this predicate is the pivot cell lookup. -/
def pairPred (p a : String) (r : PredictionRecord) : Bool :=
  r.peptide == p && r.allele == a

/-- Lexicographic comparison of character lists by code point; this is
how Python compares the strings that pandas sorts into the pivot axes. -/
def listLexLe : List Char → List Char → Bool
  | [], _ => true
  | _ :: _, [] => false
  | a :: as, b :: bs => if a = b then listLexLe as bs else decide (a < b)

/-- String comparison used for the sorted pivot axes. -/
def strLe (s t : String) : Bool :=
  listLexLe s.data t.data

/-- Strict string order (Prop form used in the statements). -/
def strLt (s t : String) : Prop :=
  strLe s t = true ∧ s ≠ t

/-- Insert into a list sorted by `le`, after all elements it does not
strictly exceed - the insertion step of a stable insertion sort. -/
def insertLe {α : Type} (le : α → α → Bool) (a : α) : List α → List α
  | [] => [a]
  | b :: bs => if le b a then b :: insertLe le a bs else a :: b :: bs

/-- Insertion sort by `le`: one concrete, deterministic implementation
of `sort_values` (numpy quicksort promises only the `le` order of the
output, not the relative order of elements comparing equal; this
implementation keeps them in input order). -/
def sortLe {α : Type} (le : α → α → Bool) (l : List α) : List α :=
  l.foldl (fun acc a => insertLe le a acc) []

/-- Row-wise minimum combination, skipping missing cells: the behaviour
of `DataFrame.min(axis=1)` on the affinity cells of one pivot row. -/
def omin : Option ℚ → Option ℚ → Option ℚ
  | none, y => y
  | some x, none => some x
  | some x, some y => some (min x y)

/-- Minimum over a list of optional affinity cells (missing cells
ignored; all-missing gives a missing value). -/
def minCells (cells : List (Option ℚ)) : Option ℚ :=
  cells.foldr omin none

/-- Sort-key comparison on `tightest_affinity` values: missing keys sort
last (`sort_values` default `na_position="last"`). -/
def optLe : Option ℚ → Option ℚ → Bool
  | _, none => true
  | none, some _ => false
  | some x, some y => decide (x ≤ y)

/-- Strict version of `optLe`. -/
def optLt : Option ℚ → Option ℚ → Bool
  | none, _ => false
  | some _, none => true
  | some x, some y => decide (x < y)

/-- One row of the wide result table: the peptide, its character count
(the derived `length` column), the `tightest_affinity` value computed for
the sort, and the affinity cells aligned with the table allele columns. -/
structure WideRow where
  peptide : String
  length : Nat
  tightest : Option ℚ
  cells : List (Option ℚ)
deriving DecidableEq, Repr

/-- The tabulated result: the allele columns (in pivot order), whether
the `tightest_affinity` column is kept (it is dropped when exactly one
allele column exists), and the sorted rows. -/
structure WideResultTable where
  alleleCols : List String
  hasTightest : Bool
  rows : List WideRow
deriving DecidableEq, Repr

/-- Sort comparison of rows by their `tightest_affinity` key. -/
def rowLe (r s : WideRow) : Bool :=
  optLe r.tightest s.tightest

/-- The row order produced by the model's sort: ascending by
`tightest_affinity`, with key ties in ascending peptide order (the row
order the pivot step established).  This is a property of the modelled
insertion sort; the program's numpy quicksort guarantees only the key
order. -/
def rowLexS (r s : WideRow) : Prop :=
  optLt r.tightest s.tightest = true ∨
    (r.tightest = s.tightest ∧ strLt r.peptide s.peptide)

/-- The deduplicated records a tabulation works on. -/
def ddOf (recs : List PredictionRecord) : List PredictionRecord :=
  dedupPA recs

/-- The pivot row axis: distinct peptides of the deduplicated records in
sorted order. -/
def pepsOf (recs : List PredictionRecord) : List String :=
  sortLe strLe ((dedupPA recs).map (fun r => r.peptide)).dedup

/-- The pivot column axis: distinct alleles of the deduplicated records
in sorted order. -/
def alsOf (recs : List PredictionRecord) : List String :=
  sortLe strLe ((dedupPA recs).map (fun r => r.allele)).dedup

/-- The pivot row of one peptide: each allele column holds the affinity
of the (unique, after dedup) record of that pair, or a missing cell; the
derived columns `length` and `tightest_affinity` are attached. -/
def rowFor (dd : List PredictionRecord) (als : List String) (p : String) :
    WideRow :=
  let cells := als.map (fun a => ((dd.find? (pairPred p a)).map
    (fun r => r.affinity)))
  { peptide := p
    length := p.length
    tightest := minCells cells
    cells := cells }

/-- The unsorted pivot rows, one per distinct peptide, in pivot (sorted
peptide) order. -/
def rowsOf (recs : List PredictionRecord) : List WideRow :=
  (pepsOf recs).map (rowFor (dedupPA recs) (alsOf recs))

/-- Translation of src/app.py lines 132-143: dedup, pivot, derived
columns, sort ascending by `tightest_affinity`, and drop that column when
only one allele column exists. -/
def tabulate (recs : List PredictionRecord) : WideResultTable :=
  { alleleCols := alsOf recs
    hasTightest := (alsOf recs).length != 1
    rows := sortLe rowLe (rowsOf recs) }

/-- The left-to-right column order of the rendered table. -/
def columnOrder (t : WideResultTable) : List String :=
  ["peptide", "length"] ++
    (if t.hasTightest then ["tightest_affinity"] else []) ++ t.alleleCols

/-- Cell lookup in the tabulated output: the row of peptide `p`, then the
cell under the column of allele `a`. -/
def tableCell (t : WideResultTable) (p a : String) : Option (Option ℚ) :=
  match t.rows.find? (fun r => r.peptide == p) with
  | none => none
  | some row => row.cells.get? (t.alleleCols.indexOf a)

/-! ## The `/results` handler (`get_results`, src/app.py lines 92-148) -/

/-- HTTP method of a `/results` request (the route allows both). -/
inductive Method where
  | POST
  | GET
deriving DecidableEq, Repr

/-- A request to `/results`: the form fields (absent unless sent in a
form body) and the query-string arguments.  Accessing an absent field via
`request.form[key]` raises; `request.args.get(key, "")` defaults. -/
structure ResultsRequest where
  method : Method
  formAlleles : Option String
  formPeptides : Option String
  argsAlleles : Option String
  argsPeptides : Option String
deriving DecidableEq, Repr

/-- Observable outcome of a `/results` request: a framework-level 400
response (a form-field access raised outside the try block), a redirect
to the form page carrying a flash message, or the rendered result page. -/
inductive ResultsOutcome where
  | httpError (code : Nat)
  | redirectFlash (msg : String)
  | page (table : WideResultTable)
deriving DecidableEq, Repr

/-- The `str()` rendering of the exception raised by accessing a missing
form field (werkzeug BadRequestKeyError), as flashed by the broad except
branch. -/
def badRequestKeyMsg : String :=
  "400 Bad Request: The browser (or proxy) sent a request that this server could not understand."

/-- The message a `TypeError` carries is irrelevant to the claims; the
constructor below only records that an uncaught exception escaped. -/
def noneTypeMsg : String :=
  "TypeError: NoneType object is not subscriptable"

/-- The message of a `PredError`. -/
def PredError.msg : PredError → String
  | .valueError m => m
  | .otherError m => m

/-- Translation of `get_results`.  Faithful details: the alleles and
peptides values come from the form for POST and from the query string for
GET (lines 94-99), but the FASTA dispatch test on line 118 re-reads
`request.form["peptides"]` unconditionally; on a GET request that field
is absent, the access raises, and the broad `except Exception` turns the
request into a flash-and-redirect. -/
def get_results (parse : FastaParse) (scan : ScanOracle) (oracle : Oracle)
    (Lmin Lmax : Nat) (req : ResultsRequest) : ResultsOutcome :=
  match (if req.method = Method.POST then req.formAlleles
         else some ((req.argsAlleles.getD ""))) with
  | none => .httpError 400
  | some form_alleles =>
    match (if req.method = Method.POST then req.formPeptides
           else some ((req.argsPeptides.getD ""))) with
    | none => .httpError 400
    | some fp0 =>
      let form_peptides0 := pyStrip fp0
      let alleles := (pySplitWs form_alleles).filter (fun a => a != "")
      if alleles = [] then .redirectFlash "Select at least one allele"
      else
        let form_peptides :=
          if 10000000 < form_peptides0.length then pyTake 10000000 form_peptides0
          else form_peptides0
        if form_peptides = "" then
          .redirectFlash "Enter peptides or FASTA protein sequences"
        else
          match req.formPeptides with
          | none => .redirectFlash badRequestKeyMsg
          | some rawFormPeptides =>
            let res :=
              if rawFormPeptides.data.contains '>' then
                predict_fasta parse scan Lmin Lmax form_peptides alleles
              else
                predict_peptides oracle Lmin Lmax
                  (pySplitWs (pyUpper form_peptides)) alleles
            match res with
            | .error e => .redirectFlash e.msg
            | .ok none => .redirectFlash "Your query resulted in no predictions."
            | .ok (some recs) =>
              if recs = [] then
                .redirectFlash "Your query resulted in no predictions."
              else .page (tabulate recs)

/-! ## The `/api-predict` handler (`iedb_api_predict`, lines 150-170) -/

/-- Response of `/api-predict`: a plain-text error line, the serialized
TSV document, or an exception that escaped the handler (an unhandled
server fault). -/
inductive ApiResponse where
  | errorLine (msg : String)
  | tsv (doc : String)
  | serverFault (msg : String)
deriving DecidableEq, Repr

/-- The allele list of an API request:
`[str(allele) for allele in request.form["allele"].split() if allele]`. -/
def apiAlleles (alleleField : String) : List String :=
  (pySplitWs alleleField).filter (fun a => a != "")

/-- The peptide list of an API request:
`[p.strip() for p in request.form["peptide"].strip()[:10000000].upper().split(",")]`. -/
def apiPeptides (peptideField : String) : List String :=
  (pySplitOn ',' (pyUpper (pyTake 10000000 (pyStrip peptideField)))).map pyStrip

/-- Fixed-point rendering of an affinity with 4 decimal places, the
`float_format="%0.4f"` of `to_csv` (ties rounded half up; the affinities
the model handles are never exact ties). -/
def format4 (q : ℚ) : String :=
  let n : ℤ := round (|q| * 10000)
  let ip : ℕ := (n / 10000).toNat
  let fp : ℕ := (n % 10000).toNat
  let fps := toString fp
  (if q < 0 ∧ n ≠ 0 then "-" else "") ++ toString ip ++ "." ++
    String.mk (List.replicate (4 - fps.length) '0') ++ fps

/-- The serialized TSV document:
`result_df[["peptide", "length", "allele", "affinity"]].to_csv(sep="\t", index=False, float_format="%0.4f")`. -/
def mkTsv (recs : List PredictionRecord) : String :=
  "peptide\tlength\tallele\taffinity\n" ++
    String.join (recs.map (fun r =>
      r.peptide ++ "\t" ++ toString r.length ++ "\t" ++ r.allele ++ "\t" ++
        format4 r.affinity ++ "\n"))

/-- Translation of `iedb_api_predict`.  The `try` block around the
prediction catches only `ValueError`; a `ValueError` becomes an `ERROR:`
line, any other exception escapes.  When `predict_peptides` returns no
result (`None`), the column selection `result_df[[...]]` raises an
uncaught `TypeError`. -/
def iedb_api_predict (oracle : Oracle) (Lmin Lmax : Nat)
    (alleleField peptideField : String) : ApiResponse :=
  let alleles := apiAlleles alleleField
  let peptides := apiPeptides peptideField
  if peptides = [] then .errorLine "ERROR: no peptide given"
  else if alleles = [] then .errorLine "ERROR: no alleles given"
  else
    match predict_peptides oracle Lmin Lmax peptides alleles with
    | .error (.valueError m) => .errorLine ("ERROR: " ++ m)
    | .error (.otherError m) => .serverFault m
    | .ok none => .serverFault noneTypeMsg
    | .ok (some recs) => .tsv (mkTsv recs)

/-- The fault condition of the API handler: the allele check passes and
prediction either yields no result or raises something other than a
`ValueError`. -/
def apiFaultCond (oracle : Oracle) (Lmin Lmax : Nat)
    (alleleField peptideField : String) : Prop :=
  apiAlleles alleleField ≠ [] ∧
    (predict_peptides oracle Lmin Lmax (apiPeptides peptideField)
        (apiAlleles alleleField) = .ok none ∨
      ∃ m, predict_peptides oracle Lmin Lmax (apiPeptides peptideField)
        (apiAlleles alleleField) = .error (.otherError m))

/-! ## Concrete collaborators used by witnesses and counterexamples -/

/-- A concrete total predictor: one record per (peptide, allele) pair
with a fixed affinity. -/
def o0 : Oracle :=
  fun peptides alleles =>
    .ok (peptides.flatMap (fun p => alleles.map (fun a =>
      { peptide := p, allele := a, affinity := (500 : ℚ), length := p.length })))

/-- A concrete FASTA parser returning no records (the FASTA branch is
never exercised by the concrete requests below). -/
def parse0 : FastaParse := fun _ => []

/-- A concrete subsequence scanner returning no records. -/
def scan0 : ScanOracle := fun _ _ _ => .ok []

/-- A sequence of 10001 valid residues, longer than the FASTA-path length
ceiling. -/
def longSeq : String :=
  String.mk (List.replicate 10001 'A')

/-- Four prediction records with two peptides, two alleles and equal
affinities everywhere; the first-encountered peptide is "BB". -/
def cexRecsTie : List PredictionRecord :=
  [{ peptide := "BB", allele := "X", affinity := 5, length := 2 },
   { peptide := "BB", allele := "Y", affinity := 5, length := 2 },
   { peptide := "AA", allele := "X", affinity := 5, length := 2 },
   { peptide := "AA", allele := "Y", affinity := 5, length := 2 }]

/-- Two prediction records whose alleles are first encountered in the
order "HLA-B", "HLA-A". -/
def cexRecsCols : List PredictionRecord :=
  [{ peptide := "ACDEFGHIK", allele := "HLA-B", affinity := 1, length := 9 },
   { peptide := "ACDEFGHIK", allele := "HLA-A", affinity := 2, length := 9 }]

/-- Two prediction records sharing a (peptide, allele) pair but carrying
different affinities. -/
def cexRecDupA : PredictionRecord :=
  { peptide := "ACDEFGHIK", allele := "HLA-A", affinity := 1, length := 9 }

/-- The conflicting duplicate of `cexRecDupA`. -/
def cexRecDupB : PredictionRecord :=
  { peptide := "ACDEFGHIK", allele := "HLA-A", affinity := 2, length := 9 }

/-- The single record the concrete predictor returns for the concrete
POST request exercised below. -/
def siinRec : PredictionRecord :=
  { peptide := "SIINFEKL", allele := "HLA-A*02:01", affinity := 500,
    length := 8 }

/-! ## Helper lemmas: splitting -/

/-- Splitting on a separator always yields at least one segment. -/
theorem splitCharsOn_ne_nil (sep : Char) (l : List Char) :
    splitCharsOn sep l ≠ [] := by
  cases l with
  | nil => simp [splitCharsOn]
  | cons c cs =>
    rw [splitCharsOn]
    by_cases h : c = sep
    · simp [h]
    · simp only [if_neg h]
      cases splitCharsOn sep cs <;> simp

/-- The peptide list built by the API handler is never empty: Python
`split(",")` returns at least one element for every string. -/
theorem apiPeptides_ne_nil (peptideField : String) :
    apiPeptides peptideField ≠ [] := by
  unfold apiPeptides pySplitOn
  intro h
  rw [List.map_eq_nil_iff, List.map_eq_nil_iff] at h
  exact splitCharsOn_ne_nil _ _ h

/-! ## Helper lemmas: first-match lookup and deduplication -/

/-- Filtering out only elements the search predicate rejects does not
change the first match. -/
theorem find?_filter_of_imp {α : Type} (q P : α → Bool)
    (h : ∀ x, q x = true → P x = true) (l : List α) :
    (l.filter P).find? q = l.find? q := by
  induction l with
  | nil => rfl
  | cons a as ih =>
    by_cases hP : P a = true
    · rw [List.filter_cons_of_pos hP]
      by_cases hq : q a = true
      · rw [List.find?_cons_of_pos _ hq, List.find?_cons_of_pos _ hq]
      · rw [List.find?_cons_of_neg _ (by simpa using hq),
          List.find?_cons_of_neg _ (by simpa using hq), ih]
    · have hq : ¬ q a = true := fun hqa => hP (h a hqa)
      rw [List.filter_cons_of_neg (by simpa using hP),
        List.find?_cons_of_neg _ hq, ih]

/-- The fuel value of the dedup worker is irrelevant above the list
length. -/
theorem dedupPAF_congr : ∀ (n m : Nat) (l : List PredictionRecord),
    l.length ≤ n → l.length ≤ m → dedupPAF n l = dedupPAF m l := by
  intro n
  induction n with
  | zero =>
    intro m l h1 _
    cases l with
    | nil => cases m <;> rfl
    | cons r rs => simp at h1
  | succ k ih =>
    intro m l h1 h2
    cases l with
    | nil => cases m <;> rfl
    | cons r rs =>
      cases m with
      | zero => simp at h2
      | succ j =>
        rw [dedupPAF, dedupPAF]
        have hrs1 : rs.length ≤ k := by
          simp only [List.length_cons] at h1
          omega
        have hrs2 : rs.length ≤ j := by
          simp only [List.length_cons] at h2
          omega
        have hf := List.length_filter_le (fun s => !(samePair r s)) rs
        exact congrArg (r :: ·) (ih j _ (le_trans hf hrs1) (le_trans hf hrs2))

/-- Nil equation of the dedup. -/
theorem dedupPA_nil : dedupPA [] = [] := rfl

/-- Cons equation of the dedup: keep the head, drop its later
duplicates, recurse. -/
theorem dedupPA_cons (r : PredictionRecord) (rs : List PredictionRecord) :
    dedupPA (r :: rs) =
      r :: dedupPA (rs.filter (fun s => !(samePair r s))) := by
  rw [dedupPA, dedupPA, show (r :: rs).length = rs.length + 1 from rfl,
    dedupPAF]
  exact congrArg (r :: ·) (dedupPAF_congr rs.length _ _
    (List.length_filter_le _ _) (le_refl _))

/-- Deduplication by (peptide, allele) pair preserves the first record of
every fixed pair: the pivot cell after `drop_duplicates` is the first-seen
record of the pair. -/
theorem find?_dedupPA (p a : String) (l : List PredictionRecord) :
    (dedupPA l).find? (pairPred p a) = l.find? (pairPred p a) := by
  have main : ∀ (n : Nat) (l : List PredictionRecord), l.length ≤ n →
      (dedupPA l).find? (pairPred p a) = l.find? (pairPred p a) := by
    intro n
    induction n with
    | zero =>
      intro l h
      cases l with
      | nil => rfl
      | cons r rs => simp at h
    | succ k ih =>
      intro l h
      cases l with
      | nil => rfl
      | cons r rs =>
        have hrs : rs.length ≤ k := by
          simp only [List.length_cons] at h
          omega
        rw [dedupPA_cons]
        by_cases hq : pairPred p a r = true
        · rw [List.find?_cons_of_pos _ hq, List.find?_cons_of_pos _ hq]
        · rw [List.find?_cons_of_neg _ (by simpa using hq),
            List.find?_cons_of_neg _ (by simpa using hq),
            ih _ (le_trans (List.length_filter_le _ _) hrs),
            find?_filter_of_imp]
          intro x hx
          simp only [pairPred, Bool.and_eq_true, beq_iff_eq] at hx
          simp only [pairPred, Bool.and_eq_true, beq_iff_eq] at hq
          cases hsp : samePair r x with
          | false => simp [hsp]
          | true =>
            exfalso
            simp only [samePair, Bool.and_eq_true, beq_iff_eq] at hsp
            exact hq ⟨hsp.1.symm.trans hx.1, hsp.2.symm.trans hx.2⟩
  exact main l.length l (le_refl _)

/-- When at most one element can satisfy the predicate, `find?` returns
exactly the member that does. -/
theorem find?_unique_iff {α : Type} (q : α → Bool) (l : List α)
    (hu : ∀ x ∈ l, ∀ y ∈ l, q x = true → q y = true → x = y) (x : α) :
    l.find? q = some x ↔ (x ∈ l ∧ q x = true) := by
  constructor
  · intro h
    exact ⟨List.mem_of_find?_eq_some h, List.find?_some h⟩
  · intro hm
    induction l with
    | nil => exact absurd hm.1 (List.not_mem_nil x)
    | cons a as ih =>
      by_cases hqa : q a = true
      · rw [List.find?_cons_of_pos _ hqa]
        exact congrArg some (hu a (List.mem_cons_self a as) x hm.1 hqa hm.2)
      · rw [List.find?_cons_of_neg _ hqa]
        have hxas : x ∈ as := by
          rcases List.mem_cons.mp hm.1 with h | h
          · exact absurd (h ▸ hm.2) hqa
          · exact h
        exact ih (fun u hu1 v hv1 => hu u (List.mem_cons_of_mem a hu1) v
          (List.mem_cons_of_mem a hv1)) ⟨hxas, hm.2⟩

/-- Every deduplicated record comes from the input. -/
theorem mem_dedupPA_sub (l : List PredictionRecord) (x : PredictionRecord) :
    x ∈ dedupPA l → x ∈ l := by
  have main : ∀ (n : Nat) (l : List PredictionRecord), l.length ≤ n →
      x ∈ dedupPA l → x ∈ l := by
    intro n
    induction n with
    | zero =>
      intro l h hx
      cases l with
      | nil => exact hx
      | cons r rs => simp at h
    | succ k ih =>
      intro l h hx
      cases l with
      | nil => exact hx
      | cons r rs =>
        have hrs : rs.length ≤ k := by
          simp only [List.length_cons] at h
          omega
        rw [dedupPA_cons] at hx
        rcases List.mem_cons.mp hx with h1 | h1
        · exact h1 ▸ List.mem_cons_self x rs
        · exact List.mem_cons_of_mem r (List.mem_of_mem_filter
            (ih _ (le_trans (List.length_filter_le _ _) hrs) h1))
  exact main l.length l (le_refl _)

/-- A (peptide, allele) pair occurs among the deduplicated records iff it
occurs among the input records. -/
theorem exists_pair_dedupPA (p a : String) (l : List PredictionRecord) :
    (∃ r ∈ dedupPA l, pairPred p a r = true) ↔
      (∃ r ∈ l, pairPred p a r = true) := by
  have h1 := find?_dedupPA p a l
  cases hf : l.find? (pairPred p a) with
  | none =>
    rw [List.find?_eq_none] at hf
    constructor
    · rintro ⟨r, hr, hq⟩
      exact absurd hq (hf r (mem_dedupPA_sub l r hr))
    · rintro ⟨r, hr, hq⟩
      exact absurd hq (hf r hr)
  | some r =>
    rw [hf] at h1
    constructor
    · rintro ⟨s, hs, hq⟩
      exact ⟨s, mem_dedupPA_sub l s hs, hq⟩
    · intro _
      exact ⟨r, List.mem_of_find?_eq_some h1, List.find?_some h1⟩

/-- A peptide occurs among the deduplicated records iff it occurs among
the input records. -/
theorem exists_pep_dedupPA (p : String) (l : List PredictionRecord) :
    (∃ r ∈ dedupPA l, r.peptide = p) ↔ (∃ r ∈ l, r.peptide = p) := by
  constructor
  · rintro ⟨r, hr, hp⟩
    exact ⟨r, mem_dedupPA_sub l r hr, hp⟩
  · rintro ⟨r, hr, hp⟩
    have hpair : ∃ s ∈ l, pairPred p r.allele s = true :=
      ⟨r, hr, by simp [pairPred, hp]⟩
    rcases (exists_pair_dedupPA p r.allele l).mpr hpair with ⟨s, hs, hq⟩
    simp only [pairPred, Bool.and_eq_true, beq_iff_eq] at hq
    exact ⟨s, hs, hq.1⟩

/-- An allele occurs among the deduplicated records iff it occurs among
the input records. -/
theorem exists_allele_dedupPA (a : String) (l : List PredictionRecord) :
    (∃ r ∈ dedupPA l, r.allele = a) ↔ (∃ r ∈ l, r.allele = a) := by
  constructor
  · rintro ⟨r, hr, ha⟩
    exact ⟨r, mem_dedupPA_sub l r hr, ha⟩
  · rintro ⟨r, hr, ha⟩
    have hpair : ∃ s ∈ l, pairPred r.peptide a s = true :=
      ⟨r, hr, by simp [pairPred, ha]⟩
    rcases (exists_pair_dedupPA r.peptide a l).mpr hpair with ⟨s, hs, hq⟩
    simp only [pairPred, Bool.and_eq_true, beq_iff_eq] at hq
    exact ⟨s, hs, hq.2⟩

/-- Deduplicating an already pair-distinct record list changes nothing. -/
theorem dedupPA_eq_self (l : List PredictionRecord)
    (h : l.Pairwise (fun r s => ¬(r.peptide = s.peptide ∧ r.allele = s.allele))) :
    dedupPA l = l := by
  induction l with
  | nil => rfl
  | cons r rs ih =>
    rw [dedupPA_cons]
    have hfilter : rs.filter (fun s => !(samePair r s)) = rs := by
      apply List.filter_eq_self.mpr
      intro s hs
      have hd := (List.pairwise_cons.mp h).1 s hs
      cases hsp : samePair r s with
      | false => simp
      | true =>
        exfalso
        simp only [samePair, Bool.and_eq_true, beq_iff_eq] at hsp
        exact hd ⟨hsp.1.symm, hsp.2.symm⟩
    rw [hfilter, ih (List.pairwise_cons.mp h).2]

/-! ## Helper lemmas: lexicographic string order -/

/-- Totality of the lexicographic comparison. -/
theorem listLexLe_total : ∀ as bs : List Char,
    listLexLe as bs = false → listLexLe bs as = true := by
  intro as
  induction as with
  | nil => intro bs h; simp [listLexLe] at h
  | cons a as ih =>
    intro bs h
    cases bs with
    | nil => rw [listLexLe]
    | cons b bs =>
      rw [listLexLe] at h
      rw [listLexLe]
      by_cases hab : a = b
      · rw [if_pos hab] at h
        rw [if_pos hab.symm]
        exact ih bs h
      · rw [if_neg hab] at h
        rw [if_neg (fun hba => hab hba.symm)]
        have hnab : ¬ a < b := by simpa using h
        rcases lt_trichotomy a b with hlt | heq | hgt
        · exact absurd hlt hnab
        · exact absurd heq hab
        · simpa using hgt

/-- Transitivity of the lexicographic comparison. -/
theorem listLexLe_trans : ∀ as bs cs : List Char,
    listLexLe as bs = true → listLexLe bs cs = true →
      listLexLe as cs = true := by
  intro as
  induction as with
  | nil => intro bs cs _ _; rw [listLexLe]
  | cons a as ih =>
    intro bs cs h1 h2
    cases bs with
    | nil => rw [listLexLe] at h1; cases h1
    | cons b bs =>
      cases cs with
      | nil => rw [listLexLe] at h2; cases h2
      | cons c cs =>
        rw [listLexLe] at h1 h2 ⊢
        by_cases hab : a = b
        · rw [if_pos hab] at h1
          by_cases hbc : b = c
          · rw [if_pos hbc] at h2
            rw [if_pos (hab.trans hbc)]
            exact ih bs cs h1 h2
          · rw [if_neg hbc] at h2
            rw [hab]
            rw [if_neg hbc]
            exact h2
        · rw [if_neg hab] at h1
          have hlt1 : a < b := by simpa using h1
          by_cases hbc : b = c
          · rw [if_neg (hbc ▸ hab)]
            simpa using hbc ▸ hlt1
          · rw [if_neg hbc] at h2
            have hlt2 : b < c := by simpa using h2
            have hac : a < c := lt_trans hlt1 hlt2
            rw [if_neg (fun h : a = c => absurd (h ▸ hac) (lt_irrefl c))]
            simpa using hac

/-- Antisymmetry of the lexicographic comparison. -/
theorem listLexLe_antisymm : ∀ as bs : List Char,
    listLexLe as bs = true → listLexLe bs as = true → as = bs := by
  intro as
  induction as with
  | nil =>
    intro bs _ h2
    cases bs with
    | nil => rfl
    | cons b bs => rw [listLexLe] at h2; cases h2
  | cons a as ih =>
    intro bs h1 h2
    cases bs with
    | nil => rw [listLexLe] at h1; cases h1
    | cons b bs =>
      rw [listLexLe] at h1 h2
      by_cases hab : a = b
      · rw [if_pos hab] at h1
        rw [if_pos hab.symm] at h2
        rw [hab, ih bs h1 h2]
      · rw [if_neg hab] at h1
        rw [if_neg (fun h => hab h.symm)] at h2
        have hlt1 : a < b := by simpa using h1
        have hlt2 : b < a := by simpa using h2
        exact absurd (lt_trans hlt1 hlt2) (lt_irrefl a)

/-- Totality of `strLe`. -/
theorem strLe_total (s t : String) (h : strLe s t = false) :
    strLe t s = true :=
  listLexLe_total s.data t.data h

/-- Transitivity of `strLe`. -/
theorem strLe_trans (s t u : String) (h1 : strLe s t = true)
    (h2 : strLe t u = true) : strLe s u = true :=
  listLexLe_trans s.data t.data u.data h1 h2

/-- Antisymmetry of `strLe`. -/
theorem strLe_antisymm (s t : String) (h1 : strLe s t = true)
    (h2 : strLe t s = true) : s = t := by
  cases s with
  | mk ds =>
    cases t with
    | mk dt => exact congrArg String.mk (listLexLe_antisymm ds dt h1 h2)

/-! ## Helper lemmas: the stable insertion sort -/

/-- Membership in an insertion step. -/
theorem mem_insertLe {α : Type} (le : α → α → Bool) (a x : α) :
    ∀ l : List α, (x ∈ insertLe le a l ↔ x = a ∨ x ∈ l) := by
  intro l
  induction l with
  | nil => simp [insertLe]
  | cons b bs ih =>
    rw [insertLe]
    by_cases h : le b a = true
    · rw [if_pos h]
      simp only [List.mem_cons, ih]
      tauto
    · rw [if_neg h]
      simp only [List.mem_cons]

/-- An insertion step is a permutation of consing. -/
theorem perm_insertLe {α : Type} (le : α → α → Bool) (a : α) :
    ∀ l : List α, List.Perm (insertLe le a l) (a :: l) := by
  intro l
  induction l with
  | nil => exact List.Perm.refl _
  | cons b bs ih =>
    rw [insertLe]
    by_cases h : le b a = true
    · rw [if_pos h]
      exact (List.Perm.cons b ih).trans (List.Perm.swap a b bs)
    · rw [if_neg h]

/-- The sort worker permutes the accumulator plus the input. -/
theorem perm_foldl_insertLe {α : Type} (le : α → α → Bool) :
    ∀ l acc : List α,
      List.Perm (l.foldl (fun ac x => insertLe le x ac) acc) (acc ++ l) := by
  intro l
  induction l with
  | nil => intro acc; simp
  | cons a as ih =>
    intro acc
    rw [List.foldl_cons]
    have h2 : List.Perm (insertLe le a acc ++ as) ((a :: acc) ++ as) :=
      (perm_insertLe le a acc).append_right as
    have h3 : List.Perm ((a :: acc) ++ as) (acc ++ a :: as) := by
      simpa using (@List.perm_middle _ a acc as).symm
    exact (ih (insertLe le a acc)).trans (h2.trans h3)

/-- The sort is a permutation of its input. -/
theorem perm_sortLe {α : Type} (le : α → α → Bool) (l : List α) :
    List.Perm (sortLe le l) l := by
  simpa [sortLe] using perm_foldl_insertLe le l []

/-- Membership is preserved by the sort. -/
theorem mem_sortLe {α : Type} (le : α → α → Bool) (l : List α) (x : α) :
    x ∈ sortLe le l ↔ x ∈ l :=
  (perm_sortLe le l).mem_iff

/-- An insertion step preserves pairwise order `S`, given that the
inserted element compares correctly against the list members. -/
theorem pairwise_insertLe {α : Type} {S : α → α → Prop} (le : α → α → Bool)
    (a : α) :
    ∀ l : List α, l.Pairwise S →
      (∀ b ∈ l, le b a = true → S b a) →
      (∀ b ∈ l, le b a = false → S a b) →
      (∀ b ∈ l, ∀ c ∈ l, le b a = false → S b c → S a c) →
      (insertLe le a l).Pairwise S := by
  intro l
  induction l with
  | nil =>
    intro _ _ _ _
    simp [insertLe]
  | cons b bs ih =>
    intro hp h1 h2 h3
    rw [insertLe]
    rcases List.pairwise_cons.mp hp with ⟨hb, hbs⟩
    by_cases h : le b a = true
    · rw [if_pos h]
      apply List.pairwise_cons.mpr
      refine ⟨?_, ?_⟩
      · intro y hy
        rcases (mem_insertLe le a y bs).mp hy with rfl | hy2
        · exact h1 b (List.mem_cons_self b bs) h
        · exact hb y hy2
      · exact ih hbs
          (fun x hx hle => h1 x (List.mem_cons_of_mem b hx) hle)
          (fun x hx hle => h2 x (List.mem_cons_of_mem b hx) hle)
          (fun x hx y hy hle hS => h3 x (List.mem_cons_of_mem b hx) y
            (List.mem_cons_of_mem b hy) hle hS)
    · rw [if_neg h]
      have hf : le b a = false := by
        cases hba : le b a with
        | false => rfl
        | true => exact absurd hba h
      apply List.pairwise_cons.mpr
      refine ⟨?_, hp⟩
      intro y hy
      rcases List.mem_cons.mp hy with heq | hy2
      · exact heq ▸ h2 b (List.mem_cons_self b bs) hf
      · exact h3 b (List.mem_cons_self b bs) y (List.mem_cons_of_mem b hy2)
          hf (hb y hy2)

/-- Main sorting lemma: sorting a list that is pairwise `R` in input
order produces a list that is pairwise `S`, where `S` captures both the
key order and (via `R`) the stable tie-break. -/
theorem sortLe_pairwise {α : Type} {S R : α → α → Prop} (le : α → α → Bool)
    (h1 : ∀ x y, le x y = true → R x y → S x y)
    (h2 : ∀ x y, le y x = false → S x y)
    (h3 : ∀ x y z, le y x = false → S y z → S x z) :
    ∀ l acc : List α, l.Pairwise R → acc.Pairwise S →
      (∀ b ∈ acc, ∀ x ∈ l, R b x) →
      (l.foldl (fun ac x => insertLe le x ac) acc).Pairwise S := by
  intro l
  induction l with
  | nil =>
    intro acc _ hacc _
    simpa using hacc
  | cons a as ih =>
    intro acc hR hacc hcross
    rw [List.foldl_cons]
    rcases List.pairwise_cons.mp hR with ⟨ha, has⟩
    apply ih _ has
    · apply pairwise_insertLe le a acc hacc
      · intro b hb hle
        exact h1 b a hle (hcross b hb a (List.mem_cons_self a as))
      · intro b hb hle
        exact h2 a b hle
      · intro b _ c _ hle hS
        exact h3 a b c hle hS
    · intro b hb x hx
      rcases (mem_insertLe le a b acc).mp hb with rfl | hb2
      · exact ha x hx
      · exact hcross b hb2 x (List.mem_cons_of_mem a hx)

/-- The trivial pairwise relation. -/
theorem pairwise_trivial {α : Type} (l : List α) :
    l.Pairwise (fun _ _ => (True : Prop)) := by
  induction l with
  | nil => exact .nil
  | cons a as ih => exact .cons (fun _ _ => trivial) ih

/-- The sort output is pairwise ordered by `le` whenever `le` is total
and transitive. -/
theorem sortLe_sorted {α : Type} (le : α → α → Bool)
    (htot : ∀ x y, le x y = false → le y x = true)
    (htrans : ∀ x y z, le x y = true → le y z = true → le x z = true)
    (l : List α) :
    (sortLe le l).Pairwise (fun a b => le a b = true) :=
  sortLe_pairwise le (fun _ _ h _ => h) (fun x y h => htot y x h)
    (fun x y z h hS => htrans x y z (htot y x h) hS) l []
    (pairwise_trivial l) .nil (by intro b hb; cases hb)

/-- Sorting two permuted lists with a total, transitive, antisymmetric
comparison yields the same list. -/
theorem sortLe_eq_of_perm {α : Type} (le : α → α → Bool)
    (htot : ∀ x y, le x y = false → le y x = true)
    (htrans : ∀ x y z, le x y = true → le y z = true → le x z = true)
    (hanti : ∀ a b, le a b = true → le b a = true → a = b)
    (l1 l2 : List α) (hp : List.Perm l1 l2) : sortLe le l1 = sortLe le l2 := by
  haveI : IsAntisymm α (fun a b => le a b = true) := ⟨hanti⟩
  exact List.eq_of_perm_of_sorted
    ((perm_sortLe le l1).trans (hp.trans (perm_sortLe le l2).symm))
    (sortLe_sorted le htot htrans l1) (sortLe_sorted le htot htrans l2)

/-! ## Helper lemmas: the sort-key order on optional affinities -/

/-- Reflexivity of the key order. -/
theorem optLe_refl (x : Option ℚ) : optLe x x = true := by
  cases x <;> simp [optLe]

/-- The key order splits into the strict order and equality. -/
theorem optLe_iff (x y : Option ℚ) :
    optLe x y = true ↔ (optLt x y = true ∨ x = y) := by
  cases x with
  | none => cases y <;> simp [optLe, optLt]
  | some a =>
    cases y with
    | none => simp [optLe, optLt]
    | some b =>
      simp only [optLe, optLt, decide_eq_true_eq, Option.some.injEq]
      exact le_iff_lt_or_eq

/-- Totality: a failed comparison means the strict reverse holds. -/
theorem optLt_of_not_le (a b : Option ℚ) (h : optLe a b = false) :
    optLt b a = true := by
  cases a with
  | none =>
    cases b with
    | none => simp [optLe] at h
    | some x => simp [optLt]
  | some x =>
    cases b with
    | none => simp [optLe] at h
    | some y =>
      simp only [optLe, decide_eq_false_iff_not] at h
      simp only [optLt, decide_eq_true_eq]
      exact not_le.mp h

/-- Strict-then-weak transitivity of the key order. -/
theorem optLt_le_trans (a b c : Option ℚ) (h1 : optLt a b = true)
    (h2 : optLe b c = true) : optLt a c = true := by
  cases a with
  | none => simp [optLt] at h1
  | some x =>
    cases b with
    | none =>
      cases c with
      | none => simp [optLt]
      | some z => simp [optLe] at h2
    | some y =>
      cases c with
      | none => simp [optLt]
      | some z =>
        simp only [optLt, decide_eq_true_eq] at h1 ⊢
        simp only [optLe, decide_eq_true_eq] at h2
        exact lt_of_lt_of_le h1 h2

/-- Irreflexivity of the strict key order. -/
theorem optLt_irrefl (x : Option ℚ) : optLt x x = false := by
  cases x <;> simp [optLt]

/-- The strict key order implies the weak one. -/
theorem optLt_imp_le (x y : Option ℚ) (h : optLt x y = true) :
    optLe x y = true := by
  cases x with
  | none => simp [optLt] at h
  | some a =>
    cases y with
    | none => simp [optLe]
    | some b =>
      simp only [optLt, decide_eq_true_eq] at h
      simp only [optLe, decide_eq_true_eq]
      exact le_of_lt h

/-! ## Helper lemmas: the pivot axes and rows -/

/-- The pivot row axis has no duplicate peptides. -/
theorem pepsOf_nodup (recs : List PredictionRecord) : (pepsOf recs).Nodup :=
  (perm_sortLe strLe _).symm.nodup
    (List.nodup_dedup ((dedupPA recs).map (fun r => r.peptide)))

/-- The pivot column axis has no duplicate alleles. -/
theorem alsOf_nodup (recs : List PredictionRecord) : (alsOf recs).Nodup :=
  (perm_sortLe strLe _).symm.nodup
    (List.nodup_dedup ((dedupPA recs).map (fun r => r.allele)))

/-- The pivot row axis is weakly sorted. -/
theorem pepsOf_sorted (recs : List PredictionRecord) :
    (pepsOf recs).Pairwise (fun a b => strLe a b = true) :=
  sortLe_sorted strLe strLe_total strLe_trans _

/-- The pivot column axis is weakly sorted. -/
theorem alsOf_sorted (recs : List PredictionRecord) :
    (alsOf recs).Pairwise (fun a b => strLe a b = true) :=
  sortLe_sorted strLe strLe_total strLe_trans _

/-- The pivot row axis is strictly sorted. -/
theorem pepsOf_sorted_strict (recs : List PredictionRecord) :
    (pepsOf recs).Pairwise strLt :=
  ((pepsOf_sorted recs).and (pepsOf_nodup recs)).imp
    (fun h => ⟨h.1, h.2⟩)

/-- The pivot column axis is strictly sorted. -/
theorem alsOf_sorted_strict (recs : List PredictionRecord) :
    (alsOf recs).Pairwise strLt :=
  ((alsOf_sorted recs).and (alsOf_nodup recs)).imp
    (fun h => ⟨h.1, h.2⟩)

/-- The pivot row axis holds exactly the peptides of the input records. -/
theorem mem_pepsOf (recs : List PredictionRecord) (p : String) :
    p ∈ pepsOf recs ↔ ∃ r ∈ recs, r.peptide = p := by
  rw [pepsOf, mem_sortLe, List.mem_dedup]
  constructor
  · intro h
    rcases List.mem_map.mp h with ⟨r, hr, hp⟩
    exact (exists_pep_dedupPA p recs).mp ⟨r, hr, hp⟩
  · intro h
    rcases (exists_pep_dedupPA p recs).mpr h with ⟨r, hr, hp⟩
    exact List.mem_map.mpr ⟨r, hr, hp⟩

/-- The pivot column axis holds exactly the alleles of the input
records. -/
theorem mem_alsOf (recs : List PredictionRecord) (a : String) :
    a ∈ alsOf recs ↔ ∃ r ∈ recs, r.allele = a := by
  rw [alsOf, mem_sortLe, List.mem_dedup]
  constructor
  · intro h
    rcases List.mem_map.mp h with ⟨r, hr, ha⟩
    exact (exists_allele_dedupPA a recs).mp ⟨r, hr, ha⟩
  · intro h
    rcases (exists_allele_dedupPA a recs).mpr h with ⟨r, hr, ha⟩
    exact List.mem_map.mpr ⟨r, hr, ha⟩

/-- The peptides of the unsorted pivot rows are the row axis. -/
theorem rowsOf_map_pep (recs : List PredictionRecord) :
    (rowsOf recs).map (fun r => r.peptide) = pepsOf recs := by
  rw [rowsOf, List.map_map]
  exact List.map_id _

/-- The sorted rows are a permutation of the unsorted pivot rows. -/
theorem rows_perm (recs : List PredictionRecord) :
    List.Perm (tabulate recs).rows (rowsOf recs) :=
  perm_sortLe rowLe (rowsOf recs)

/-- Row membership in the table. -/
theorem mem_rows_iff (recs : List PredictionRecord) (row : WideRow) :
    row ∈ (tabulate recs).rows ↔
      ∃ p ∈ pepsOf recs, row = rowFor (dedupPA recs) (alsOf recs) p := by
  rw [(rows_perm recs).mem_iff, rowsOf]
  constructor
  · intro h
    rcases List.mem_map.mp h with ⟨p, hp, hrow⟩
    exact ⟨p, hp, hrow.symm⟩
  · rintro ⟨p, hp, hrow⟩
    exact List.mem_map.mpr ⟨p, hp, hrow.symm⟩

/-- No peptide appears in two rows of the table. -/
theorem rows_nodup_pep (recs : List PredictionRecord) :
    ((tabulate recs).rows.map (fun r => r.peptide)).Nodup := by
  have hperm := (rows_perm recs).map (fun r => r.peptide)
  rw [rowsOf_map_pep recs] at hperm
  exact hperm.symm.nodup (pepsOf_nodup recs)

/-- Looking up a row of the table by peptide finds the pivot row of that
peptide. -/
theorem rows_find?_pep (recs : List PredictionRecord) (p : String)
    (hp : p ∈ pepsOf recs) :
    (tabulate recs).rows.find? (fun r => r.peptide == p) =
      some (rowFor (dedupPA recs) (alsOf recs) p) := by
  apply (find?_unique_iff _ _ ?_ _).mpr
  · refine ⟨?_, ?_⟩
    · exact (mem_rows_iff recs _).mpr ⟨p, hp, rfl⟩
    · simp [rowFor]
  · intro x hx y hy hqx hqy
    rcases (mem_rows_iff recs x).mp hx with ⟨px, hpx, hex⟩
    rcases (mem_rows_iff recs y).mp hy with ⟨py, hpy, hey⟩
    simp only [beq_iff_eq] at hqx hqy
    rw [hex] at hqx
    rw [hey] at hqy
    simp only [rowFor] at hqx hqy
    rw [hex, hey, hqx, hqy]

/-- The table cell of a present (peptide, allele) pair is the affinity of
the first input record of that pair. -/
theorem tableCell_eq (recs : List PredictionRecord) (p a : String)
    (hp : p ∈ pepsOf recs) (ha : a ∈ alsOf recs) :
    tableCell (tabulate recs) p a =
      some (((dedupPA recs).find? (pairPred p a)).map (fun r => r.affinity)) := by
  unfold tableCell
  rw [rows_find?_pep recs p hp]
  show ((alsOf recs).map (fun b =>
      ((dedupPA recs).find? (pairPred p b)).map (fun r => r.affinity))).get?
        (List.indexOf a (alsOf recs)) =
    some (((dedupPA recs).find? (pairPred p a)).map (fun r => r.affinity))
  rw [List.get?_map, List.indexOf_get? ha]
  rfl

/-- The unsorted pivot rows are in strictly ascending peptide order. -/
theorem rowsOf_pairwise_pepLt (recs : List PredictionRecord) :
    (rowsOf recs).Pairwise (fun r s => strLt r.peptide s.peptide) := by
  rw [rowsOf]
  apply List.pairwise_map.mpr
  exact pepsOf_sorted_strict recs

/-- The sorted table rows are pairwise in `rowLexS` order: ascending by
key, ties in ascending peptide order. -/
theorem rows_pairwise_lex (recs : List PredictionRecord) :
    (tabulate recs).rows.Pairwise rowLexS := by
  have h1 : ∀ x y : WideRow, rowLe x y = true →
      strLt x.peptide y.peptide → rowLexS x y := by
    intro x y hle hR
    rcases (optLe_iff x.tightest y.tightest).mp hle with hlt | heq
    · exact Or.inl hlt
    · exact Or.inr ⟨heq, hR⟩
  have h2 : ∀ x y : WideRow, rowLe y x = false → rowLexS x y := by
    intro x y hle
    exact Or.inl (optLt_of_not_le y.tightest x.tightest hle)
  have h3 : ∀ x y z : WideRow, rowLe y x = false → rowLexS y z →
      rowLexS x z := by
    intro x y z hle hS
    have hxy : optLt x.tightest y.tightest = true :=
      optLt_of_not_le y.tightest x.tightest hle
    have hyz : optLe y.tightest z.tightest = true := by
      rcases hS with hlt | ⟨heq, _⟩
      · exact optLt_imp_le _ _ hlt
      · rw [heq]; exact optLe_refl _
    exact Or.inl (optLt_le_trans _ _ _ hxy hyz)
  exact @sortLe_pairwise WideRow rowLexS
    (fun r s => strLt r.peptide s.peptide) rowLe h1 h2 h3 (rowsOf recs) []
    (rowsOf_pairwise_pepLt recs) List.Pairwise.nil (by intro b hb; cases hb)

/-! ## Helper lemmas: validator characterization and pipeline shapes -/

/-- Zeta-reduced form of `predict_peptides`. -/
theorem predict_peptides_eq (oracle : Oracle) (Lmin Lmax : Nat)
    (peptides alleles : List String) :
    predict_peptides oracle Lmin Lmax peptides alleles =
      if peptides = [] then .ok none
      else if peptides.filter (fun p => check_peptide_validity p Lmin Lmax) = []
        then .ok none
      else (oracle (peptides.filter
        (fun p => check_peptide_validity p Lmin Lmax)) alleles).map some := rfl

/-- A successful or failed predictor call never maps to an ok-none. -/
theorem map_some_ne_ok_none (e : Except PredError (List PredictionRecord)) :
    e.map some ≠ .ok none := by
  cases e <;> simp [Except.map]

/-- Propositional form of the core regex match. -/
theorem matchesCore_iff (s : String) (mn mx : Nat) :
    matchesCore s mn mx = true ↔
      ((∀ c ∈ s.data, c ∈ COMMON_AMINO_ACIDS) ∧ mn ≤ s.length ∧
        s.length ≤ mx) := by
  simp only [matchesCore, Bool.and_eq_true, decide_eq_true_eq,
    List.all_eq_true]
  tauto

/-- The trailing-newline disjunct of the validity check, characterized by
a string decomposition. -/
theorem newline_match_iff (s : String) (mn mx : Nat) :
    ((match s.data.getLast? with
      | some c => c = '\n' && matchesCore (String.mk s.data.dropLast) mn mx
      | none => false) = true) ↔
      (∃ t : String, s = t ++ "\n" ∧ matchesCore t mn mx = true) := by
  rcases List.eq_nil_or_concat s.data with hnil | ⟨as, a, heq⟩
  · rw [hnil]
    simp only [List.getLast?_nil]
    constructor
    · intro h; cases h
    · rintro ⟨t, ht, _⟩
      exfalso
      have : s.data = t.data ++ ['\n'] := by
        rw [ht]; rfl
      rw [hnil] at this
      exact List.cons_ne_nil '\n' [] (List.append_eq_nil.mp this.symm).2
  · rw [List.concat_eq_append] at heq
    rw [heq]
    simp only [List.getLast?_concat, List.dropLast_concat, Bool.and_eq_true,
      decide_eq_true_eq]
    constructor
    · rintro ⟨hc, hm⟩
      refine ⟨String.mk as, ?_, hm⟩
      cases s with
      | mk d =>
        simp only [String.data] at heq
        rw [heq, hc]
        rfl
    · rintro ⟨t, ht, hm⟩
      have hdata : as ++ [a] = t.data ++ ['\n'] := by
        rw [← heq, ht]; rfl
      rcases List.append_inj' hdata rfl with ⟨h1, h2⟩
      have ha : a = '\n' := by
        injection h2
      refine ⟨ha, ?_⟩
      have : String.mk as = t := by
        rw [h1]
      rw [this]
      exact hm

/-! ## Claim C4 -/

/-- C4 (counterexample): the claimed characterization of the validity
check fails at the explicit input "ACDEFGHI\n" with bounds 8 and 15: the
string contains a character outside the amino-acid alphabet, yet the
check returns true, because the Python dollar anchor also matches just
before the trailing newline. -/
theorem validity_trailing_newline_cex :
    ¬ (check_peptide_validity "ACDEFGHI\n" 8 15 = true ↔
        ((∀ c ∈ ("ACDEFGHI\n" : String).data, c ∈ COMMON_AMINO_ACIDS) ∧
          8 ≤ ("ACDEFGHI\n" : String).length ∧
          ("ACDEFGHI\n" : String).length ≤ 15)) := by
  decide

/-- C4 (amended): for bounds with `1 ≤ m`, the validity check returns
true iff either every character of the string is in the fixed alphabet
and its length lies in `[m, M]`, or the string is such a valid string
followed by a single trailing newline (the Python dollar-anchor
behaviour); in particular the empty string is always invalid. -/
theorem validity_characterization :
    (∀ (s : String) (m M : Nat), 1 ≤ m →
      (check_peptide_validity s m M = true ↔
        ((∀ c ∈ s.data, c ∈ COMMON_AMINO_ACIDS) ∧ m ≤ s.length ∧
          s.length ≤ M) ∨
        (∃ t : String, s = t ++ "\n" ∧
          (∀ c ∈ t.data, c ∈ COMMON_AMINO_ACIDS) ∧ m ≤ t.length ∧
            t.length ≤ M))) ∧
    (∀ m M : Nat, 1 ≤ m → check_peptide_validity "" m M = false) := by
  constructor
  · intro s m M _
    rw [check_peptide_validity, Bool.or_eq_true, matchesCore_iff,
      newline_match_iff]
    constructor
    · rintro (h | ⟨t, ht, hm⟩)
      · exact Or.inl h
      · exact Or.inr ⟨t, ht, (matchesCore_iff t m M).mp hm⟩
    · rintro (h | ⟨t, ht, hm⟩)
      · exact Or.inl h
      · exact Or.inr ⟨t, ht, (matchesCore_iff t m M).mpr hm⟩
  · intro m M hm
    show (matchesCore "" m M || false) = false
    rw [Bool.or_false, matchesCore]
    have h0 : decide (m ≤ ("" : String).length) = false := by
      apply decide_eq_false
      intro hle
      have h00 : ("" : String).length = 0 := rfl
      omega
    rw [h0, Bool.false_and, Bool.false_and]

/-- C4 (witness): the amended characterization applied at concrete
inputs. -/
theorem validity_characterization_witness :
    check_peptide_validity "ACDEFGHIK" 8 15 = true ∧
      check_peptide_validity "" 8 15 = false :=
  ⟨(validity_characterization.1 "ACDEFGHIK" 8 15 (by decide)).mpr
      (Or.inl (by decide)),
    validity_characterization.2 8 15 (by decide)⟩

/-! ## Claim C3 -/

/-- C3 (counterexample): a parsed FASTA record whose sequence consists of
10001 valid residues satisfies the claimed acceptance conditions (valid
alphabet, length at least the minimum 8), yet the record filter rejects
it: the FASTA-path upper bound is the hard-coded 10000, not unbounded. -/
theorem fastaFilter_rejects_long_sequence :
    (∀ c ∈ longSeq.data, c ∈ COMMON_AMINO_ACIDS) ∧ 8 ≤ longSeq.length ∧
      fasta_record_ok 8 longSeq = false := by
  have hdata : longSeq.data = List.replicate 10001 'A' := rfl
  have hlen : longSeq.length = 10001 := by
    show (List.replicate 10001 'A').length = 10001
    exact List.length_replicate 10001 'A'
  refine ⟨?_, ?_, ?_⟩
  · intro c hc
    rw [hdata] at hc
    rw [List.eq_of_mem_replicate hc]
    decide
  · omega
  · rw [fasta_record_ok, check_peptide_validity]
    have hcore : matchesCore longSeq 8 10000 = false := by
      rw [matchesCore]
      have h1 : decide (longSeq.length ≤ 10000) = false := by
        apply decide_eq_false
        omega
      rw [h1, Bool.and_false, Bool.false_and]
    have hlast : longSeq.data.getLast? = some 'A' := by
      rw [hdata, show (10001 : Nat) = 10000 + 1 from rfl, List.replicate_succ',
        List.getLast?_concat]
    rw [hcore, hlast]
    show (false || ((('A' : Char) = '\n' : Bool) &&
      matchesCore (String.mk longSeq.data.dropLast) 8 10000)) = false
    rw [show ((('A' : Char) = '\n' : Bool)) = false from by decide,
      Bool.false_and, Bool.or_false]

/-- C3 (amended): for a record whose sequence uses only recognized
amino-acid symbols, the FASTA record filter accepts it if and only if its
length lies in `[Lmin, 10000]` - the filter imposes the lower bound
`Lmin`, the alphabet check, and the hard-coded upper bound 10000; in
particular over-alphabet sequences shorter than `Lmin` or longer than
10000 are rejected. -/
theorem fastaFilter_bounds :
    ∀ (seq : String) (Lmin : Nat),
      (∀ c ∈ seq.data, c ∈ COMMON_AMINO_ACIDS) →
      (fasta_record_ok Lmin seq = true ↔
        (Lmin ≤ seq.length ∧ seq.length ≤ 10000)) := by
  intro seq Lmin halpha
  constructor
  · intro hok
    rw [fasta_record_ok, check_peptide_validity, Bool.or_eq_true] at hok
    rcases hok with hcore | hnl
    · rcases (matchesCore_iff seq Lmin 10000).mp hcore with ⟨_, hlo, hhi⟩
      exact ⟨hlo, hhi⟩
    · exfalso
      rcases (newline_match_iff seq Lmin 10000).mp hnl with ⟨t, ht, _⟩
      have hmem : '\n' ∈ seq.data := by
        rw [ht]
        show '\n' ∈ (t ++ "\n").data
        cases t with
        | mk d =>
          show '\n' ∈ d ++ ['\n']
          exact List.mem_append_right d (List.mem_cons_self '\n' [])
      have hc := halpha '\n' hmem
      revert hc
      decide
  · rintro ⟨hlo, hhi⟩
    rw [fasta_record_ok, check_peptide_validity, Bool.or_eq_true]
    exact Or.inl ((matchesCore_iff seq Lmin 10000).mpr ⟨halpha, hlo, hhi⟩)

/-- C3 (witness): the amended filter characterization applied at
concrete over-alphabet sequences: a 9-residue sequence is accepted, a
3-residue sequence (below the minimum 8) is rejected, and the
10001-residue sequence is rejected. -/
theorem fastaFilter_bounds_witness :
    fasta_record_ok 8 "ACDEFGHIK" = true ∧
      fasta_record_ok 8 "ACD" = false ∧
      fasta_record_ok 8 longSeq = false := by
  have hlongalpha : ∀ c ∈ longSeq.data, c ∈ COMMON_AMINO_ACIDS := by
    intro c hc
    have hdata : longSeq.data = List.replicate 10001 'A' := rfl
    rw [hdata] at hc
    rw [List.eq_of_mem_replicate hc]
    decide
  have hlen : longSeq.length = 10001 := by
    show (List.replicate 10001 'A').length = 10001
    exact List.length_replicate 10001 'A'
  refine ⟨?_, ?_, ?_⟩
  · exact (fastaFilter_bounds "ACDEFGHIK" 8 (by decide)).mpr
      ⟨by decide, by decide⟩
  · cases hb : fasta_record_ok 8 "ACD" with
    | false => rfl
    | true =>
      exact absurd ((fastaFilter_bounds "ACD" 8 (by decide)).mp hb).1
        (by decide)
  · cases hb : fasta_record_ok 8 longSeq with
    | false => rfl
    | true =>
      have hhi := ((fastaFilter_bounds longSeq 8 hlongalpha).mp hb).2
      omega

/-! ## Claim C5 -/

/-- C5: `predict_peptides` returns absent (ok-none, not an error) exactly
when the input list is empty or no input peptide passes the validity
check against the supported length range; otherwise it calls the
external predictor on the valid subset and returns its long-format
result. -/
theorem predictPeptides_absent_iff :
    ∀ (oracle : Oracle) (Lmin Lmax : Nat) (peptides alleles : List String),
      (predict_peptides oracle Lmin Lmax peptides alleles = .ok none ↔
        (peptides = [] ∨
          peptides.filter (fun p => check_peptide_validity p Lmin Lmax) = [])) ∧
      (peptides.filter (fun p => check_peptide_validity p Lmin Lmax) ≠ [] →
        predict_peptides oracle Lmin Lmax peptides alleles =
          (oracle (peptides.filter (fun p => check_peptide_validity p Lmin Lmax))
            alleles).map some) := by
  intro oracle Lmin Lmax peptides alleles
  rw [predict_peptides_eq]
  by_cases hp : peptides = []
  · rw [if_pos hp]
    constructor
    · constructor
      · intro _
        exact Or.inl hp
      · intro _
        rfl
    · intro hv
      rw [hp] at hv
      simp at hv
  · rw [if_neg hp]
    by_cases hv : peptides.filter (fun p => check_peptide_validity p Lmin Lmax) = []
    · rw [if_pos hv]
      constructor
      · constructor
        · intro _
          exact Or.inr hv
        · intro _
          rfl
      · intro hv2
        exact absurd hv hv2
    · rw [if_neg hv]
      constructor
      · constructor
        · intro h
          exact absurd h (map_some_ne_ok_none _)
        · intro h
          rcases h with h | h
          · exact absurd h hp
          · exact absurd h hv
      · intro _
        rfl

/-- C5 (witness): the absence characterization applied at concrete
inputs: an all-invalid list yields absent, a valid peptide reaches the
predictor. -/
theorem predictPeptides_absent_iff_witness :
    predict_peptides o0 8 15 ["XXXXXXXXX"] ["HLA-A*02:01"] = .ok none ∧
      predict_peptides o0 8 15 ["ACDEFGHIK"] ["HLA-A*02:01"] =
        (o0 ["ACDEFGHIK"] ["HLA-A*02:01"]).map some := by
  constructor
  · exact (predictPeptides_absent_iff o0 8 15 ["XXXXXXXXX"]
      ["HLA-A*02:01"]).1.mpr (Or.inr (by decide))
  · have h := (predictPeptides_absent_iff o0 8 15 ["ACDEFGHIK"]
      ["HLA-A*02:01"]).2 (by decide)
    rw [h]
    rw [show (["ACDEFGHIK"].filter
      (fun p => check_peptide_validity p 8 15)) = ["ACDEFGHIK"] from by decide]

/-! ## Claim C10 -/

/-- C10: the no-peptide error branch of the API handler is dead code:
splitting any string on commas yields at least one element, so the
peptide list is never empty and the handler behaves exactly as if the
branch were absent - in particular an empty peptide field proceeds to
prediction instead of returning that error line. -/
theorem apiPredict_no_peptide_error_unreachable :
    (∀ s : String, 1 ≤ (pySplitOn ',' s).length) ∧
    (∀ (oracle : Oracle) (Lmin Lmax : Nat) (alleleField peptideField : String),
      iedb_api_predict oracle Lmin Lmax alleleField peptideField =
        (if apiAlleles alleleField = [] then
          ApiResponse.errorLine "ERROR: no alleles given"
        else
          match predict_peptides oracle Lmin Lmax (apiPeptides peptideField)
            (apiAlleles alleleField) with
          | .error (.valueError m) => .errorLine ("ERROR: " ++ m)
          | .error (.otherError m) => .serverFault m
          | .ok none => .serverFault noneTypeMsg
          | .ok (some recs) => .tsv (mkTsv recs))) := by
  constructor
  · intro s
    rw [pySplitOn, List.length_map]
    have h := splitCharsOn_ne_nil ',' s.data
    cases hh : splitCharsOn ',' s.data with
    | nil => exact absurd hh h
    | cons g gs =>
      rw [List.length_cons]
      exact Nat.succ_le_succ (Nat.zero_le _)
  · intro oracle Lmin Lmax alleleField peptideField
    rw [iedb_api_predict]
    rw [if_neg (apiPeptides_ne_nil peptideField)]

/-- C10 (witness): with an empty peptide field the handler reaches
prediction (which then yields no result and faults), rather than the
no-peptide error line. -/
theorem apiPredict_no_peptide_error_unreachable_witness :
    1 ≤ (pySplitOn ',' "").length ∧
      iedb_api_predict o0 8 15 "HLA-A*02:01" "" =
        ApiResponse.serverFault noneTypeMsg := by
  constructor
  · exact apiPredict_no_peptide_error_unreachable.1 ""
  · rw [apiPredict_no_peptide_error_unreachable.2 o0 8 15 "HLA-A*02:01" ""]
    decide

/-! ## Claim C2 -/

/-- The API handler with its dead no-peptide branch removed (the peptide
list is never empty). -/
theorem iedb_api_predict_reduce (oracle : Oracle) (Lmin Lmax : Nat)
    (alleleField peptideField : String) :
    iedb_api_predict oracle Lmin Lmax alleleField peptideField =
      (if apiAlleles alleleField = [] then
        ApiResponse.errorLine "ERROR: no alleles given"
      else
        match predict_peptides oracle Lmin Lmax (apiPeptides peptideField)
          (apiAlleles alleleField) with
        | .error (.valueError m) => .errorLine ("ERROR: " ++ m)
        | .error (.otherError m) => .serverFault m
        | .ok none => .serverFault noneTypeMsg
        | .ok (some recs) => .tsv (mkTsv recs)) := by
  rw [iedb_api_predict]
  rw [if_neg (apiPeptides_ne_nil peptideField)]

/-- C2 (counterexample): at the explicit request with allele field
"HLA-A*02:01" and peptide field "123" every submitted peptide is filtered
out as invalid, `predict_peptides` yields no result, and the handler
raises an uncaught TypeError - the response is neither an ERROR: line nor
a TSV document, contradicting the claim. -/
theorem apiPredict_all_invalid_fault :
    iedb_api_predict o0 8 15 "HLA-A*02:01" "123" =
        ApiResponse.serverFault noneTypeMsg ∧
      ¬ ((∃ m, iedb_api_predict o0 8 15 "HLA-A*02:01" "123" =
            ApiResponse.errorLine m) ∨
          (∃ d, iedb_api_predict o0 8 15 "HLA-A*02:01" "123" =
            ApiResponse.tsv d)) := by
  have h : iedb_api_predict o0 8 15 "HLA-A*02:01" "123" =
      ApiResponse.serverFault noneTypeMsg := by decide
  refine ⟨h, ?_⟩
  rw [h]
  rintro (⟨m, hm⟩ | ⟨d, hd⟩)
  · exact ApiResponse.noConfusion hm
  · exact ApiResponse.noConfusion hd

/-- C2 (amended): every API response is an ERROR:-prefixed line, a TSV
document in the fixed serialization (header
peptide/length/allele/affinity, affinities rendered with 4 decimal
places), or an uncaught exception; the uncaught case occurs exactly when
the allele check passes and prediction yields no result (every submitted
peptide filtered out, including the empty-field case) or raises a
non-ValueError exception. -/
theorem apiPredict_response_shape :
    ∀ (oracle : Oracle) (Lmin Lmax : Nat) (alleleField peptideField : String),
      ((∃ m rest, iedb_api_predict oracle Lmin Lmax alleleField peptideField =
          ApiResponse.errorLine m ∧ m = "ERROR: " ++ rest) ∨
        (∃ recs, iedb_api_predict oracle Lmin Lmax alleleField peptideField =
          ApiResponse.tsv (mkTsv recs)) ∨
        (∃ m, iedb_api_predict oracle Lmin Lmax alleleField peptideField =
          ApiResponse.serverFault m)) ∧
      ((∃ m, iedb_api_predict oracle Lmin Lmax alleleField peptideField =
          ApiResponse.serverFault m) ↔
        apiFaultCond oracle Lmin Lmax alleleField peptideField) := by
  intro oracle Lmin Lmax af pf
  rw [iedb_api_predict_reduce oracle Lmin Lmax af pf]
  simp only [apiFaultCond]
  by_cases ha : apiAlleles af = []
  · rw [if_pos ha]
    constructor
    · exact Or.inl ⟨"ERROR: no alleles given", "no alleles given", rfl, rfl⟩
    · constructor
      · rintro ⟨m, hm⟩
        exact ApiResponse.noConfusion hm
      · rintro ⟨hne, _⟩
        exact absurd ha hne
  · rw [if_neg ha]
    cases hpred : predict_peptides oracle Lmin Lmax (apiPeptides pf)
        (apiAlleles af) with
    | error e =>
      cases e with
      | valueError m =>
        constructor
        · exact Or.inl ⟨"ERROR: " ++ m, m, rfl, rfl⟩
        · constructor
          · rintro ⟨m2, hm⟩
            exact ApiResponse.noConfusion hm
          · rintro ⟨_, (hok | ⟨m2, herr⟩)⟩
            · exact Except.noConfusion hok
            · simp at herr
      | otherError m =>
        constructor
        · exact Or.inr (Or.inr ⟨m, rfl⟩)
        · constructor
          · intro _
            exact ⟨ha, Or.inr ⟨m, rfl⟩⟩
          · intro _
            exact ⟨m, rfl⟩
    | ok oval =>
      cases oval with
      | none =>
        constructor
        · exact Or.inr (Or.inr ⟨noneTypeMsg, rfl⟩)
        · constructor
          · intro _
            exact ⟨ha, Or.inl rfl⟩
          · intro _
            exact ⟨noneTypeMsg, rfl⟩
      | some recs =>
        constructor
        · exact Or.inr (Or.inl ⟨recs, rfl⟩)
        · constructor
          · rintro ⟨m, hm⟩
            exact ApiResponse.noConfusion hm
          · rintro ⟨_, (hok | ⟨m2, herr⟩)⟩
            · simp at hok
            · simp at herr

/-- C2 (witness): the response-shape characterization applied at a
concrete request whose peptides are all filtered out. -/
theorem apiPredict_response_shape_witness :
    ((∃ m, iedb_api_predict o0 8 15 "HLA-A*02:01" "123" =
        ApiResponse.serverFault m) ↔
      apiFaultCond o0 8 15 "HLA-A*02:01" "123") ∧
      apiFaultCond o0 8 15 "HLA-A*02:01" "123" := by
  refine ⟨(apiPredict_response_shape o0 8 15 "HLA-A*02:01" "123").2, ?_, ?_⟩
  · decide
  · exact Or.inl rfl

/-! ## Claim C1 -/

/-- C1 (code bug, demonstrated): at a GET request carrying alleles and
peptides in the query string, the handler reads the values from
`request.args` (lines 97-99) but the FASTA dispatch on line 118 re-reads
`request.form["peptides"]`, which is absent; the raised
BadRequestKeyError is caught by the broad except and the request is
redirected with an error flash instead of being predicted.  The same data
sent as a POST form reaches prediction and renders a result page. -/
theorem getResults_GET_form_bug :
    get_results parse0 scan0 o0 8 15
        { method := Method.GET, formAlleles := none, formPeptides := none,
          argsAlleles := some "HLA-A*02:01",
          argsPeptides := some "SIINFEKL" } =
      ResultsOutcome.redirectFlash badRequestKeyMsg ∧
    get_results parse0 scan0 o0 8 15
        { method := Method.POST, formAlleles := some "HLA-A*02:01",
          formPeptides := some "SIINFEKL", argsAlleles := none,
          argsPeptides := none } =
      ResultsOutcome.page (tabulate [siinRec]) := by
  constructor
  · decide
  · decide

/-! ## Claim C6 -/

/-- C6: tabulation deduplicates by (peptide, allele) keeping the first
occurrence, and the wide table has exactly one row per distinct peptide
of the deduplicated records: the row peptides are duplicate-free, the
row count equals the number of distinct peptides, a peptide has a row iff
some deduplicated record carries it, and the cell of a pair is the
affinity of the first input record of that pair. -/
theorem tabulate_dedup_unique_rows :
    ∀ recs : List PredictionRecord,
      ((tabulate recs).rows.map (fun r => r.peptide)).Nodup ∧
      (tabulate recs).rows.length =
        (((dedupPA recs).map (fun r => r.peptide)).dedup).length ∧
      (∀ p, (∃ row ∈ (tabulate recs).rows, row.peptide = p) ↔
        ∃ r ∈ dedupPA recs, r.peptide = p) ∧
      (∀ (p a : String) (r : PredictionRecord),
        recs.find? (pairPred p a) = some r →
          tableCell (tabulate recs) p a = some (some r.affinity)) := by
  intro recs
  refine ⟨rows_nodup_pep recs, ?_, ?_, ?_⟩
  · rw [(rows_perm recs).length_eq, rowsOf, List.length_map, pepsOf,
      (perm_sortLe strLe _).length_eq]
  · intro p
    constructor
    · rintro ⟨row, hrow, hpeq⟩
      rcases (mem_rows_iff recs row).mp hrow with ⟨q, hq, he⟩
      rw [he] at hpeq
      simp only [rowFor] at hpeq
      rw [← hpeq]
      exact (exists_pep_dedupPA q recs).mpr ((mem_pepsOf recs q).mp hq)
    · intro h
      have hp : p ∈ pepsOf recs :=
        (mem_pepsOf recs p).mpr ((exists_pep_dedupPA p recs).mp h)
      exact ⟨rowFor (dedupPA recs) (alsOf recs) p,
        (mem_rows_iff recs _).mpr ⟨p, hp, rfl⟩, rfl⟩
  · intro p a r hfind
    have hq := List.find?_some hfind
    have hmem := List.mem_of_find?_eq_some hfind
    simp only [pairPred, Bool.and_eq_true, beq_iff_eq] at hq
    have hp : p ∈ pepsOf recs := (mem_pepsOf recs p).mpr ⟨r, hmem, hq.1⟩
    have ha : a ∈ alsOf recs := (mem_alsOf recs a).mpr ⟨r, hmem, hq.2⟩
    rw [tableCell_eq recs p a hp ha, find?_dedupPA, hfind]
    rfl

/-- C6 (witness): with two input records sharing a pair and carrying
affinities 1 and 2, the tabulated cell holds the first-seen 1. -/
theorem tabulate_dedup_unique_rows_witness :
    tableCell (tabulate [cexRecDupA, cexRecDupB]) "ACDEFGHIK" "HLA-A" =
      some (some 1) := by
  exact (tabulate_dedup_unique_rows [cexRecDupA, cexRecDupB]).2.2.2
    "ACDEFGHIK" "HLA-A" cexRecDupA (by decide)

/-! ## Claim C7 -/

/-- C7 (counterexample): with four tie records whose first-encountered
peptide is "BB", the two output rows share the tightest-affinity key, yet
they appear in the order "AA", "BB" - not the original dedup-step order
"BB", "AA" the claim predicts: the pivot step reorders rows by peptide
before the sort, discarding the input order. -/
theorem tabulate_tiebreak_cex :
    ((dedupPA cexRecsTie).map (fun r => r.peptide) =
      ["BB", "BB", "AA", "AA"]) ∧
    ((tabulate cexRecsTie).rows.map (fun r => r.tightest) =
      [some 5, some 5]) ∧
    ((tabulate cexRecsTie).rows.map (fun r => r.peptide) = ["AA", "BB"]) ∧
    ((tabulate cexRecsTie).rows.map (fun r => r.peptide) ≠ ["BB", "AA"]) := by
  refine ⟨by decide, by decide, by decide, by decide⟩

/-- C7 (amended): the tightest-affinity column is present exactly when
the table has more than one allele column (with one allele it is dropped
after being used as the sort key, where it equals that single allele
cell); each row carries one cell per allele column and its tightest value
is the row-wise minimum of the present cells; and the rows are sorted
ascending by that key.  The relative order of rows with equal keys is
not guaranteed by the program (numpy quicksort is unstable), and in
particular is not the original dedup-step input order - see the
counterexample. -/
theorem tabulate_sort_tightest :
    ∀ recs : List PredictionRecord,
      (2 ≤ (tabulate recs).alleleCols.length →
        (tabulate recs).hasTightest = true) ∧
      ((tabulate recs).alleleCols.length = 1 →
        (tabulate recs).hasTightest = false) ∧
      (∀ row ∈ (tabulate recs).rows, row.tightest = minCells row.cells ∧
        row.cells.length = (tabulate recs).alleleCols.length) ∧
      (tabulate recs).rows.Pairwise
        (fun r s => optLe r.tightest s.tightest = true) := by
  intro recs
  refine ⟨?_, ?_, ?_, ?_⟩
  · intro h2
    have h2a : 2 ≤ (alsOf recs).length := h2
    show ((alsOf recs).length != 1) = true
    rw [bne_iff_ne]
    omega
  · intro h1
    have h1a : (alsOf recs).length = 1 := h1
    show ((alsOf recs).length != 1) = false
    rw [bne_eq_false_iff_eq]
    exact h1a
  · intro row hrow
    rcases (mem_rows_iff recs row).mp hrow with ⟨p, hp, he⟩
    constructor
    · rw [he]
      rfl
    · rw [he]
      show ((alsOf recs).map _).length = (alsOf recs).length
      simp
  · apply (rows_pairwise_lex recs).imp
    intro r s h
    rcases h with hlt | ⟨heq, _⟩
    · exact optLt_imp_le _ _ hlt
    · rw [heq]
      exact optLe_refl _

/-- C7 (witness): the amended sort characterization applied at the
two-allele record list: the tightest column is kept and the rows are in
ascending key order. -/
theorem tabulate_sort_tightest_witness :
    (tabulate cexRecsCols).hasTightest = true ∧
      (tabulate cexRecsCols).rows.Pairwise
        (fun r s => optLe r.tightest s.tightest = true) :=
  ⟨(tabulate_sort_tightest cexRecsCols).1 (by decide),
    (tabulate_sort_tightest cexRecsCols).2.2.2⟩

/-! ## Claim C8 -/

/-- C8 (counterexample): with the alleles first encountered in the order
"HLA-B", "HLA-A", the tabulated columns come out with "HLA-A" before
"HLA-B" - sorted, not in first-encounter order as claimed. -/
theorem tabulate_column_order_cex :
    columnOrder (tabulate cexRecsCols) =
        ["peptide", "length", "tightest_affinity", "HLA-A", "HLA-B"] ∧
      columnOrder (tabulate cexRecsCols) ≠
        ["peptide", "length", "tightest_affinity", "HLA-B", "HLA-A"] := by
  refine ⟨by decide, by decide⟩

/-- C8 (amended): the tabulated columns are peptide, length,
tightest_affinity (present iff more than one allele column), followed by
the allele columns, which are exactly the distinct alleles of the input
records in strictly ascending lexicographic order (the pivot sorts the
column axis; first-encounter order is not preserved). -/
theorem tabulate_column_order :
    ∀ recs : List PredictionRecord,
      columnOrder (tabulate recs) = ["peptide", "length"] ++
        (if (tabulate recs).hasTightest then ["tightest_affinity"]
          else []) ++ (tabulate recs).alleleCols ∧
      ((tabulate recs).hasTightest = true ↔
        (tabulate recs).alleleCols.length ≠ 1) ∧
      (tabulate recs).alleleCols.Pairwise strLt ∧
      (∀ a, a ∈ (tabulate recs).alleleCols ↔ ∃ r ∈ recs, r.allele = a) := by
  intro recs
  refine ⟨rfl, ?_, alsOf_sorted_strict recs, mem_alsOf recs⟩
  show ((alsOf recs).length != 1) = true ↔ (alsOf recs).length ≠ 1
  exact bne_iff_ne

/-- C8 (witness): the column characterization applied at the tie records,
whose distinct alleles are X and Y. -/
theorem tabulate_column_order_witness :
    columnOrder (tabulate cexRecsTie) = ["peptide", "length"] ++
        (if (tabulate cexRecsTie).hasTightest then ["tightest_affinity"]
          else []) ++ (tabulate cexRecsTie).alleleCols ∧
      ("X" ∈ (tabulate cexRecsTie).alleleCols ↔
        ∃ r ∈ cexRecsTie, r.allele = "X") :=
  ⟨(tabulate_column_order cexRecsTie).1,
    (tabulate_column_order cexRecsTie).2.2.2 "X"⟩

/-! ## Claim C9 -/

/-- C9 (counterexample): swapping two input records that share a
(peptide, allele) pair but carry different affinities changes which
affinity survives deduplication, so the two tabulations differ - the
claimed invariance under every permutation fails. -/
theorem tabulate_perm_cex :
    List.Perm [cexRecDupA, cexRecDupB] [cexRecDupB, cexRecDupA] ∧
      (tabulate [cexRecDupA, cexRecDupB]).rows ≠
        (tabulate [cexRecDupB, cexRecDupA]).rows := by
  constructor
  · exact List.Perm.swap cexRecDupB cexRecDupA []
  · decide

/-- C9 (amended): tabulation is invariant under input reordering
whenever no two records share a (peptide, allele) pair: permuting such a
record list yields the identical table. -/
theorem tabulate_perm_invariant :
    ∀ l1 l2 : List PredictionRecord, List.Perm l1 l2 →
      l1.Pairwise (fun r s => ¬(r.peptide = s.peptide ∧ r.allele = s.allele)) →
      tabulate l1 = tabulate l2 := by
  intro l1 l2 hperm hnd
  have hsymm : ∀ {x y : PredictionRecord},
      ¬(x.peptide = y.peptide ∧ x.allele = y.allele) →
        ¬(y.peptide = x.peptide ∧ y.allele = x.allele) := by
    intro x y h hc
    exact h ⟨hc.1.symm, hc.2.symm⟩
  have hnd2 : l2.Pairwise
      (fun r s => ¬(r.peptide = s.peptide ∧ r.allele = s.allele)) :=
    (hperm.pairwise_iff hsymm).mp hnd
  have hd1 : dedupPA l1 = l1 := dedupPA_eq_self l1 hnd
  have hd2 : dedupPA l2 = l2 := dedupPA_eq_self l2 hnd2
  have hpeps : pepsOf l1 = pepsOf l2 := by
    rw [pepsOf, pepsOf, hd1, hd2]
    exact sortLe_eq_of_perm strLe strLe_total strLe_trans strLe_antisymm _ _
      ((hperm.map (fun r => r.peptide)).dedup)
  have hals : alsOf l1 = alsOf l2 := by
    rw [alsOf, alsOf, hd1, hd2]
    exact sortLe_eq_of_perm strLe strLe_total strLe_trans strLe_antisymm _ _
      ((hperm.map (fun r => r.allele)).dedup)
  have hfind : ∀ p a, (dedupPA l1).find? (pairPred p a) =
      (dedupPA l2).find? (pairPred p a) := by
    intro p a
    rw [hd1, hd2]
    cases hf : l1.find? (pairPred p a) with
    | none =>
      have h2 : l2.find? (pairPred p a) = none := by
        rw [List.find?_eq_none]
        intro x hx
        exact (List.find?_eq_none.mp hf) x (hperm.mem_iff.mpr hx)
      rw [h2]
    | some r =>
      have hmem := List.mem_of_find?_eq_some hf
      have hq := List.find?_some hf
      have huniq : ∀ x ∈ l2, ∀ y ∈ l2, pairPred p a x = true →
          pairPred p a y = true → x = y := by
        intro x hx y hy hqx hqy
        by_cases hxy : x = y
        · exact hxy
        · exfalso
          simp only [pairPred, Bool.and_eq_true, beq_iff_eq] at hqx hqy
          exact (List.Pairwise.forall (fun _ _ h => hsymm h) hnd2 hx hy hxy)
            ⟨hqx.1.trans hqy.1.symm, hqx.2.trans hqy.2.symm⟩
      rw [(find?_unique_iff (pairPred p a) l2 huniq r).mpr
        ⟨hperm.mem_iff.mp hmem, hq⟩]
  have hrows : rowsOf l1 = rowsOf l2 := by
    rw [rowsOf, rowsOf, hpeps, hals]
    apply List.map_congr_left
    intro p _
    have hcell : ((alsOf l2).map (fun a =>
        ((dedupPA l1).find? (pairPred p a)).map (fun r => r.affinity))) =
        ((alsOf l2).map (fun a =>
          ((dedupPA l2).find? (pairPred p a)).map (fun r => r.affinity))) := by
      apply List.map_congr_left
      intro a _
      rw [hfind p a]
    simp only [rowFor]
    rw [hcell]
  simp only [tabulate, hals, hrows]

/-- C9 (witness): permuting two pair-distinct records leaves the table
unchanged. -/
theorem tabulate_perm_invariant_witness :
    tabulate [cexRecDupA, siinRec] = tabulate [siinRec, cexRecDupA] :=
  tabulate_perm_invariant [cexRecDupA, siinRec] [siinRec, cexRecDupA]
    (List.Perm.swap siinRec cexRecDupA []) (by decide)
